import Mathlib

/-!
Verification of the mynewsrobot article-selection core against its
natural-language specification.

The pure Python components are embedded directly from their source:
`src/utils/memory_manager.py` (the Deduplication Ledger),
`src/tools/bookmark_loader_tool.py` (the Bookmark Loader), and the
article-assembly loop of `src/news_scraper.py`.  The Selection Engine and
the Priority Resolver exist in the repository only as natural-language
instructions to an LLM agent (`AGENT_INSTRUCTION` in
`src/agents/content_analysis_agent.py`), so those two components are
modelled from the specification text (spec sections 4.2 and 4.3), as
marked on each such definition.
-/

namespace MyNewsRobot

/-! ## Deduplication Ledger (`src/utils/memory_manager.py`) -/

/-- State of the `MemoryManager` class: the `_processed_urls` set of
normalized URLs together with `session_ttl_days` (the `service` field is
an external ADK object with no bearing on the ledger operations). -/
structure MemoryManager where
  processed_urls : Finset String
  session_ttl_days : Nat
deriving DecidableEq

/-- Python's `str.strip` whitespace test, at ASCII level: space, tab,
newline, carriage return, vertical tab and form feed. -/
def pyIsSpace (c : Char) : Bool :=
  c = ' ' || c = '\t' || c = '\n' || c = '\r' || c.toNat = 11 || c.toNat = 12

/-- Python's `str.lower` for ASCII characters. -/
def asciiLower (c : Char) : Char :=
  if 65 ≤ c.toNat && c.toNat ≤ 90 then Char.ofNat (c.toNat + 32) else c

/-- Python's `str.strip()`: drop whitespace from both ends. -/
def pyStrip (l : List Char) : List Char :=
  ((l.dropWhile pyIsSpace).reverse.dropWhile pyIsSpace).reverse

/-- The URL normalization `url.strip().lower()` used by both
`add_processed_url` and `is_processed`, modelled at the character level. -/
def pyNormalize (url : String) : String :=
  ⟨(pyStrip url.data).map asciiLower⟩

/-- `MemoryManager.add_processed_url`: `self._processed_urls.add(url.strip().lower())`. -/
def MemoryManager.add_processed_url (st : MemoryManager) (url : String) : MemoryManager :=
  { st with processed_urls := insert (pyNormalize url) st.processed_urls }

/-- `MemoryManager.is_processed`: `url.strip().lower() in self._processed_urls`. -/
def MemoryManager.is_processed (st : MemoryManager) (url : String) : Bool :=
  decide (pyNormalize url ∈ st.processed_urls)

/-- `MemoryManager.get_unprocessed_urls`: keep the URLs that are not processed. -/
def MemoryManager.get_unprocessed_urls (st : MemoryManager) (urls : List String) : List String :=
  urls.filter (fun url => !st.is_processed url)

/-- `MemoryManager.get_processed_count`: `len(self._processed_urls)`. -/
def MemoryManager.get_processed_count (st : MemoryManager) : Nat :=
  st.processed_urls.card

/-- The module-level `memory_manager = MemoryManager()`: empty set, default ttl 7. -/
def initialMemory : MemoryManager := ⟨∅, 7⟩

/-- A sequence of `add_processed_url` calls, used to speak about which URLs
were ever recorded into a ledger built from a known starting state. -/
def recordAll (st : MemoryManager) (urls : List String) : MemoryManager :=
  urls.foldl MemoryManager.add_processed_url st

/-! ## Bookmark Loader (`src/tools/bookmark_loader_tool.py`) -/

/-- One entry of the `bookmarks:` list of the YAML file, as seen by
`_load_from_local`: either not a dict (skipped with a warning) or a dict
whose `url`, `note` and `submitted_date` keys may each be present or absent. -/
inductive YamlBookmark where
  | nonDict
  | dict (url : Option String) (note : Option String) (submitted_date : Option String)
deriving DecidableEq, Repr

/-- A validated bookmark as produced by `_load_from_local`:
`{url, note (default ""), submitted_date (default ""), priority: 11}`. -/
structure LoadedBookmark where
  url : String
  note : String
  submitted_date : String
  priority : Nat
deriving DecidableEq, Repr

/-- The result dictionary of `BookmarkLoaderTool.run`. -/
structure RunResult where
  success : Bool
  bookmarks : List LoadedBookmark
  count : Nat
  source : String
  error : Option String
  warning : Option String
deriving DecidableEq, Repr

/-- The validation step of `_load_from_local`'s loop body: skip entries that
are not dicts, skip dicts without a `url` key, otherwise keep the entry with
defaults filled in and `priority` set to 11. -/
def validateBookmark : YamlBookmark → Option LoadedBookmark
  | .nonDict => none
  | .dict none _ _ => none
  | .dict (some u) note sd => some ⟨u, note.getD "", sd.getD "", 11⟩

/-- `BookmarkLoaderTool._load_from_local` after a successful read and YAML
parse: `data.get("bookmarks") or []` (here `data` is `none` when the file has
no `bookmarks` key or it is null), validate each entry, and return success. -/
def load_from_local (file_path : String) (data : Option (List YamlBookmark)) : RunResult :=
  let validated := (data.getD []).filterMap validateBookmark
  ⟨true, validated, validated.length, file_path, none, none⟩

/-- Outcome of opening and parsing the local bookmark file inside
`BookmarkLoaderTool.run`: the file is missing (Python raises
`FileNotFoundError` at `open`), or it is readable with some parsed content,
or reading/parsing raises some other exception. -/
inductive FsFile where
  | missing
  | readable (data : Option (List YamlBookmark))
  | raisesOther (msg : String)
deriving DecidableEq, Repr

/-- `BookmarkLoaderTool.run` for a local `config_path` (the `gs://` branch is
external network I/O and out of the specified core): dispatch to
`_load_from_local`, catching `FileNotFoundError` as a successful empty result
and any other exception as a failure. -/
def BookmarkLoaderTool.run (config_path : String) (fs : FsFile) : RunResult :=
  match fs with
  | .missing =>
      ⟨true, [], 0, config_path, none, some "Bookmark file not found, returning empty list"⟩
  | .readable data => load_from_local config_path data
  | .raisesOther msg => ⟨false, [], 0, config_path, some msg, none⟩

/-! ## Article assembly of `src/news_scraper.py` -/

/-- An RSS entry as consumed by the scraper loop (already flattened across
sources; `source_name` and `category` come from the enclosing source record). -/
structure FeedEntry where
  link : String
  title : String
  summary : String
  source_name : String
  category : String
  published_date : Option String
deriving DecidableEq, Repr

/-- An article dict as written to `discovered_articles.json`. -/
structure ScrapedArticle where
  url : String
  title : String
  excerpt : String
  source : String
  category : String
  published_date : Option String
  is_bookmark : Bool
deriving DecidableEq, Repr

/-- The article built from an RSS entry in the scraper loop
(`is_bookmark: False`). -/
def entryToArticle (e : FeedEntry) : ScrapedArticle :=
  ⟨e.link, e.title, e.summary, e.source_name, e.category, e.published_date, false⟩

/-- The article built from a loaded bookmark in the scraper's bookmark loop
(`is_bookmark: True`; the loader guarantees the `note` and `submitted_date`
keys are present). -/
def bookmarkToArticle (b : LoadedBookmark) : ScrapedArticle :=
  ⟨b.url, b.note, b.note, "User Bookmark", "bookmark", some b.submitted_date, true⟩

/-- The article-assembly loop of `news_scraper.main`: RSS entries are kept
only when `not memory_manager.is_processed(article["url"])`, then every
bookmark is appended unconditionally. -/
def discoverArticles (mm : MemoryManager) (entries : List FeedEntry)
    (bms : List LoadedBookmark) : List ScrapedArticle :=
  (entries.map entryToArticle).filter (fun a => !mm.is_processed a.url)
    ++ bms.map bookmarkToArticle

/-- The unfiltered candidate pool the scraper assembles from (all RSS
entries followed by all bookmarks). -/
def rawPool (entries : List FeedEntry) (bms : List LoadedBookmark) : List ScrapedArticle :=
  entries.map entryToArticle ++ bms.map bookmarkToArticle

/-! ## Selection Engine and Priority Resolver

The repository implements article selection as a natural-language prompt to
an LLM (`AGENT_INSTRUCTION` in `src/agents/content_analysis_agent.py`) whose
free-text reply is regex-scraped by `analyze_articles` in `src/main.py`;
no executable selection algorithm exists in the source.  The definitions in
this section are therefore modelled from the specification (spec section
4.3 for the Selection Engine, 4.2 for the Priority Resolver, section 3 for
the Article data model). -/

/-- Modelled from the spec: the Article record of spec section 3 (the
repository has no Article class; articles are ad-hoc JSON dicts).
`published_at` is an optional timestamp, absent values sorting as oldest;
`priority` is optional because the Selection Engine must detect articles
reaching it without a resolved priority. -/
structure Article where
  url : String
  title : String
  excerpt : String
  source_name : String
  category : String
  published_at : Option Nat
  is_bookmark : Bool
  priority : Option Nat
  matched_topic : Option String
deriving DecidableEq, Repr

/-- Modelled from the spec: recency key with "absent values sort as oldest"
(spec section 3), so `none` maps strictly below every real timestamp. -/
def pubKey : Option Nat → Nat
  | none => 0
  | some n => n + 1

/-- The resolved priority of an article, defaulting to 0 for unresolved
(the engine rejects unresolved articles before this is ever compared). -/
def priVal (a : Article) : Nat := a.priority.getD 0

/-- Modelled from the spec: the bookmark tie-break order of spec section
4.3 step 2 — `published_at` descending, then `url` ascending. -/
def bookmarkLE (a b : Article) : Bool :=
  decide (pubKey b.published_at < pubKey a.published_at ∨
    (pubKey a.published_at = pubKey b.published_at ∧ a.url ≤ b.url))

/-- Modelled from the spec: the composite sort key of spec section 4.3 step
5 — priority descending, `published_at` descending with nulls last, `url`
ascending. -/
def othersLE (a b : Article) : Bool :=
  decide (priVal b < priVal a ∨
    (priVal a = priVal b ∧
      (pubKey b.published_at < pubKey a.published_at ∨
        (pubKey a.published_at = pubKey b.published_at ∧ a.url ≤ b.url))))

/-- Insertion step of the deterministic sort used by the Selection Engine
model. -/
def insertSorted (le : Article → Article → Bool) (a : Article) : List Article → List Article
  | [] => [a]
  | b :: rest => if le a b then a :: b :: rest else b :: insertSorted le a rest

/-- Modelled from the spec: the deterministic sort (insertion sort) by the
given total order, realizing "Sort `others` by composite key" and the
bookmark tie-break of spec section 4.3. -/
def sortBy (le : Article → Article → Bool) (l : List Article) : List Article :=
  l.foldr (insertSorted le) []

/-- Modelled from the spec: the per-topic cap of 10 (spec section 4.3 step 4). -/
def topicCap : Nat := 10

/-- Increment the running accepted-count of one topic bucket (`none` is the
pooled "unmatched" bucket). -/
def bumpCount (counts : Option String → Nat) (t : Option String) : Option String → Nat :=
  fun s => if s = t then counts s + 1 else counts s

/-- Modelled from the spec: the greedy walk of spec section 4.3 step 6 —
accept an article when its topic's running accepted-count is below the cap,
until `remaining` articles are accepted or the list is exhausted. -/
def greedyAccept (remaining : Nat) (counts : Option String → Nat) :
    List Article → List Article
  | [] => []
  | a :: rest =>
    if remaining = 0 then []
    else if counts a.matched_topic < topicCap then
      a :: greedyAccept (remaining - 1) (bumpCount counts a.matched_topic) rest
    else
      greedyAccept remaining counts rest

/-- Number of articles of the list that the greedy walk would accept with no
slot limit: the cap-eligible candidates given running counts. -/
def cappedAvail (counts : Option String → Nat) : List Article → Nat
  | [] => 0
  | a :: rest =>
    if counts a.matched_topic < topicCap then
      1 + cappedAvail (bumpCount counts a.matched_topic) rest
    else
      cappedAvail counts rest

/-- Modelled from the spec: the error taxonomy of spec section 7. -/
inductive SelectionError where
  | invariantViolation
deriving DecidableEq, Repr

/-- Modelled from the spec: the precondition check of spec section 4.3 —
fail when `target_size <= 0` or some article reaches the engine without a
resolved priority. -/
def invariantViolated (target : Int) (pool : List Article) : Bool :=
  decide (target ≤ 0) || pool.any (fun a => a.priority.isNone)

/-- Modelled from the spec: the Selection Engine algorithm of spec section
4.3 (deterministic selection steps 1-7; the repository's own "engine" is an
LLM prompt).  Partition the pool, include bookmarks unconditionally
(truncating by the recency/URL tie-break only when they strictly exceed the
target), then greedily fill the remaining slots from the sorted others
under the per-topic cap. -/
def selectArticles (target : Int) (pool : List Article) :
    Except SelectionError (List Article) :=
  if invariantViolated target pool then .error .invariantViolation
  else
    let bookmarks := pool.filter (fun a => a.is_bookmark)
    let others := pool.filter (fun a => !a.is_bookmark)
    if target.toNat < bookmarks.length then
      .ok ((sortBy bookmarkLE bookmarks).take target.toNat)
    else
      .ok (bookmarks ++
        greedyAccept (target.toNat - bookmarks.length) (fun _ => 0) (sortBy othersLE others))

/-- Modelled from the spec: a Topic of the read-only catalog (spec section 3). -/
structure Topic where
  name : String
  keywords : List String
  priority : Nat
deriving DecidableEq, Repr

/-- The injected topic-matching capability of spec sections 4.2 and 6:
`(article_title, article_excerpt, topic_catalog) -> Optional[(topic_name, topic_priority)]`. -/
def Matcher : Type :=
  String → String → List Topic → Option (String × Nat)

/-- Modelled from the spec: the Priority Resolver of spec section 4.2 —
bookmarks bypass it entirely; a matched article receives the topic's
priority and name; an unmatched article receives the floor priority 7 and a
null topic. -/
def resolveArticle (m : Matcher) (catalog : List Topic) (a : Article) : Article :=
  if a.is_bookmark then a
  else
    match m a.title a.excerpt catalog with
    | some (name, pr) => { a with priority := some pr, matched_topic := some name }
    | none => { a with priority := some 7, matched_topic := none }

/-- The priority invariant of spec section 3: bookmarks carry exactly 11,
non-bookmarks a resolved priority between 7 and 10. -/
def ArticlePriorityInv (a : Article) : Prop :=
  (a.is_bookmark = true → a.priority = some 11) ∧
  (a.is_bookmark = false → a.priority.isSome = true ∧ 7 ≤ priVal a ∧ priVal a ≤ 10)

instance (a : Article) : Decidable (ArticlePriorityInv a) := by
  unfold ArticlePriorityInv
  infer_instance

/-! ## Concrete example data used by witnesses and by the counterexample -/

/-- Length of a selection outcome, `none` on error. -/
def resultLength : Except SelectionError (List Article) → Option Nat
  | .ok r => some r.length
  | .error _ => none

/-- Build an article with the fields that matter to selection. -/
def mkArticle (u : String) (bm : Bool) (pr : Option Nat) (t : Option String)
    (pa : Option Nat) : Article :=
  ⟨u, "", "", "", "", pa, bm, pr, t⟩

/-- Eleven non-bookmark candidates sharing one `matched_topic`, all with
resolved priority 10: fewer than 20 candidates, but more than the per-topic
cap. -/
def cexPool : List Article :=
  (List.range 11).map (fun i => mkArticle (toString i) false (some 10) (some "T") (some i))

/-- Concrete bookmark article for witnesses. -/
def wB2 : Article := mkArticle "b" true (some 11) none none

/-- Concrete scored non-bookmark article for witnesses. -/
def wO2 : Article := mkArticle "o" false (some 9) (some "T") (some 5)

/-- Concrete valid candidate pool for witnesses. -/
def wPool2 : List Article := [wB2, wO2]

/-- The selection result on `wPool2`. -/
def wRes2 : List Article := [wB2, wO2]

/-- Concrete matcher (matches nothing) for the C6 witness. -/
def wMatcher : Matcher := fun _ _ _ => none

/-- Concrete ledger for the C7 witness: the URL "u1" is recorded. -/
def wMM : MemoryManager := recordAll initialMemory ["u1"]

/-- Concrete already-delivered RSS entry for the C7 witness. -/
def wEntry1 : FeedEntry := ⟨"u1", "t1", "s1", "src", "cat", none⟩

/-- Concrete fresh RSS entry for the C7 witness. -/
def wEntry2 : FeedEntry := ⟨"u2", "t2", "s2", "src", "cat", none⟩

/-- Concrete bookmark for the C7 witness; its URL is already delivered. -/
def wBm : LoadedBookmark := ⟨"u1", "note", "2025-01-01", 11⟩

/-! ## Supporting lemmas about the sort and the greedy walk -/

theorem insertSorted_perm (le : Article → Article → Bool) (a : Article) (l : List Article) :
    List.Perm (insertSorted le a l) (a :: l) := by
  induction l with
  | nil => exact List.Perm.refl _
  | cons b rest ih =>
      simp only [insertSorted]
      by_cases h : le a b
      · simp only [h, if_true]
        exact List.Perm.refl _
      · simp only [h, if_false]
        exact (ih.cons b).trans (List.Perm.swap a b rest)

theorem sortBy_perm (le : Article → Article → Bool) (l : List Article) :
    List.Perm (sortBy le l) l := by
  induction l with
  | nil => exact List.Perm.refl _
  | cons a rest ih =>
      show List.Perm (insertSorted le a (sortBy le rest)) (a :: rest)
      exact (insertSorted_perm le a (sortBy le rest)).trans (ih.cons a)

theorem mem_sortBy {le : Article → Article → Bool} {l : List Article} {a : Article} :
    a ∈ sortBy le l ↔ a ∈ l :=
  (sortBy_perm le l).mem_iff

theorem length_sortBy (le : Article → Article → Bool) (l : List Article) :
    (sortBy le l).length = l.length :=
  (sortBy_perm le l).length_eq

theorem pairwise_insertSorted (le : Article → Article → Bool)
    (htot : ∀ a b, le a b = true ∨ le b a = true)
    (htrans : ∀ a b c, le a b = true → le b c = true → le a c = true)
    (a : Article) (l : List Article) (h : List.Pairwise (fun x y => le x y = true) l) :
    List.Pairwise (fun x y => le x y = true) (insertSorted le a l) := by
  induction l with
  | nil => simp [insertSorted]
  | cons b rest ih =>
      rcases List.pairwise_cons.mp h with ⟨hb, hrest⟩
      simp only [insertSorted]
      by_cases hab : le a b
      · simp only [hab, if_true]
        refine List.pairwise_cons.mpr ⟨?_, h⟩
        intro x hx
        rcases List.mem_cons.mp hx with rfl | hx'
        · exact hab
        · exact htrans a b x hab (hb x hx')
      · simp only [hab, if_false]
        refine List.pairwise_cons.mpr ⟨?_, ih hrest⟩
        intro x hx
        rcases List.mem_cons.mp ((insertSorted_perm le a rest).mem_iff.mp hx) with rfl | h'
        · rcases htot x b with h'' | h''
          · exact absurd h'' hab
          · exact h''
        · exact hb x h'

theorem sortBy_pairwise (le : Article → Article → Bool)
    (htot : ∀ a b, le a b = true ∨ le b a = true)
    (htrans : ∀ a b c, le a b = true → le b c = true → le a c = true)
    (l : List Article) :
    List.Pairwise (fun x y => le x y = true) (sortBy le l) := by
  induction l with
  | nil => simp [sortBy]
  | cons a rest ih =>
      show List.Pairwise _ (insertSorted le a (sortBy le rest))
      exact pairwise_insertSorted le htot htrans a _ ih

theorem bookmarkLE_total : ∀ a b, bookmarkLE a b = true ∨ bookmarkLE b a = true := by
  intro a b
  simp only [bookmarkLE, decide_eq_true_eq]
  rcases Nat.lt_trichotomy (pubKey a.published_at) (pubKey b.published_at) with h | h | h
  · right; left; exact h
  · rcases le_total a.url b.url with hu | hu
    · left; right; exact ⟨h, hu⟩
    · right; right; exact ⟨h.symm, hu⟩
  · left; left; exact h

theorem bookmarkLE_trans : ∀ a b c, bookmarkLE a b = true → bookmarkLE b c = true →
    bookmarkLE a c = true := by
  intro a b c hab hbc
  simp only [bookmarkLE, decide_eq_true_eq] at hab hbc ⊢
  rcases hab with h₁ | ⟨h₁, hu₁⟩ <;> rcases hbc with h₂ | ⟨h₂, hu₂⟩
  · left; omega
  · left; omega
  · left; omega
  · right; exact ⟨by omega, le_trans hu₁ hu₂⟩

theorem othersLE_total : ∀ a b, othersLE a b = true ∨ othersLE b a = true := by
  intro a b
  simp only [othersLE, decide_eq_true_eq]
  rcases Nat.lt_trichotomy (priVal a) (priVal b) with h | h | h
  · right; left; exact h
  · rcases Nat.lt_trichotomy (pubKey a.published_at) (pubKey b.published_at) with h' | h' | h'
    · right; right; exact ⟨h.symm, Or.inl h'⟩
    · rcases le_total a.url b.url with hu | hu
      · left; right; exact ⟨h, Or.inr ⟨h', hu⟩⟩
      · right; right; exact ⟨h.symm, Or.inr ⟨h'.symm, hu⟩⟩
    · left; right; exact ⟨h, Or.inl h'⟩
  · left; left; exact h

theorem othersLE_trans : ∀ a b c, othersLE a b = true → othersLE b c = true →
    othersLE a c = true := by
  intro a b c hab hbc
  simp only [othersLE, decide_eq_true_eq] at hab hbc ⊢
  rcases hab with h₁ | ⟨h₁, hr₁⟩ <;> rcases hbc with h₂ | ⟨h₂, hr₂⟩
  · left; omega
  · left; omega
  · left; omega
  · refine Or.inr ⟨by omega, ?_⟩
    rcases hr₁ with h₃ | ⟨h₃, hu₁⟩ <;> rcases hr₂ with h₄ | ⟨h₄, hu₂⟩
    · left; omega
    · left; omega
    · left; omega
    · right; exact ⟨by omega, le_trans hu₁ hu₂⟩

/-- The bookmark tie-break sort really sorts: its output is pairwise
ordered by `published_at` descending then `url` ascending. -/
theorem sortBy_bookmarkLE_sorted (l : List Article) :
    List.Pairwise (fun x y => bookmarkLE x y = true) (sortBy bookmarkLE l) :=
  sortBy_pairwise bookmarkLE bookmarkLE_total bookmarkLE_trans l

/-- The composite-key sort really sorts: its output is pairwise ordered by
priority descending, recency descending (nulls last), `url` ascending. -/
theorem sortBy_othersLE_sorted (l : List Article) :
    List.Pairwise (fun x y => othersLE x y = true) (sortBy othersLE l) :=
  sortBy_pairwise othersLE othersLE_total othersLE_trans l

theorem mem_greedyAccept (l : List Article) :
    ∀ (n : Nat) (c : Option String → Nat) (a : Article),
      a ∈ greedyAccept n c l → a ∈ l := by
  induction l with
  | nil => intro n c a h; simp [greedyAccept] at h
  | cons b rest ih =>
      intro n c a h
      cases n with
      | zero => simp [greedyAccept] at h
      | succ m =>
          by_cases hc : c b.matched_topic < topicCap
          · simp only [greedyAccept, Nat.succ_ne_zero, if_false, hc, if_true] at h
            rcases List.mem_cons.mp h with rfl | h'
            · exact List.mem_cons_self _ _
            · exact List.mem_cons_of_mem _ (ih _ _ _ h')
          · simp only [greedyAccept, Nat.succ_ne_zero, if_false, hc] at h
            exact List.mem_cons_of_mem _ (ih _ _ _ h)

theorem length_greedyAccept (l : List Article) :
    ∀ (n : Nat) (c : Option String → Nat),
      (greedyAccept n c l).length = min n (cappedAvail c l) := by
  induction l with
  | nil => intro n c; simp [greedyAccept, cappedAvail]
  | cons a rest ih =>
      intro n c
      cases n with
      | zero => simp [greedyAccept]
      | succ m =>
          by_cases hc : c a.matched_topic < topicCap
          · have h₁ := ih m (bumpCount c a.matched_topic)
            simp only [greedyAccept, Nat.succ_ne_zero, if_false, hc, if_true,
              Nat.succ_sub_one, List.length_cons, cappedAvail, h₁]
            omega
          · have h₁ := ih (m + 1) c
            simp only [greedyAccept, Nat.succ_ne_zero, if_false, hc, cappedAvail, h₁]

theorem countP_greedyAccept (l : List Article) :
    ∀ (n : Nat) (c : Option String → Nat) (T : Option String),
      (greedyAccept n c l).countP (fun a => decide (a.matched_topic = T)) ≤ topicCap - c T := by
  induction l with
  | nil => intro n c T; simp [greedyAccept]
  | cons a rest ih =>
      intro n c T
      cases n with
      | zero => simp [greedyAccept]
      | succ m =>
          by_cases hc : c a.matched_topic < topicCap
          · simp only [greedyAccept, Nat.succ_ne_zero, if_false, hc, if_true,
              Nat.succ_sub_one]
            have h₁ := ih m (bumpCount c a.matched_topic) T
            by_cases hT : T = a.matched_topic
            · subst hT
              simp only [bumpCount] at h₁
              simp [List.countP_cons] at h₁ ⊢
              omega
            · have hne : ¬ a.matched_topic = T := fun h => hT h.symm
              simp only [bumpCount] at h₁
              simp [List.countP_cons, hT, hne] at h₁ ⊢
              omega
          · simp only [greedyAccept, Nat.succ_ne_zero, if_false, hc]
            exact ih (m + 1) c T

theorem greedyAccept_eq_self (l : List Article) :
    ∀ (n : Nat) (c : Option String → Nat), l.length ≤ n →
      (∀ T, c T + l.countP (fun a => decide (a.matched_topic = T)) ≤ topicCap) →
      greedyAccept n c l = l := by
  induction l with
  | nil => intro n c _ _; cases n <;> rfl
  | cons a rest ih =>
      intro n c hlen hcap
      cases n with
      | zero => simp at hlen
      | succ m =>
          have ht : c a.matched_topic < topicCap := by
            have h₁ := hcap a.matched_topic
            simp [List.countP_cons] at h₁
            omega
          simp only [greedyAccept, Nat.succ_ne_zero, if_false, ht, if_true, Nat.succ_sub_one]
          congr 1
          refine ih m (bumpCount c a.matched_topic) (by simpa using hlen) ?_
          intro T
          have h₁ := hcap T
          by_cases hT : T = a.matched_topic
          · subst hT
            simp only [bumpCount]
            simp [List.countP_cons] at h₁ ⊢
            omega
          · have hne : ¬ a.matched_topic = T := fun h => hT h.symm
            simp only [bumpCount]
            simp [List.countP_cons, hT, hne] at h₁ ⊢
            omega

theorem select_ok_sub {t : Int} {pool r : List Article}
    (h : selectArticles t pool = .ok r) : ∀ a ∈ r, a ∈ pool := by
  intro a ha
  by_cases hv : invariantViolated t pool = true
  · simp [selectArticles, hv] at h
  · by_cases hb : t.toNat < (pool.filter (fun x => x.is_bookmark)).length
    · simp only [selectArticles, hv, Bool.false_eq_true, if_false, hb, if_true,
        Except.ok.injEq] at h
      subst h
      exact List.mem_of_mem_filter (mem_sortBy.mp (List.mem_of_mem_take ha))
    · simp only [selectArticles, hv, Bool.false_eq_true, if_false, hb, if_true,
        Except.ok.injEq] at h
      subst h
      rcases List.mem_append.mp ha with h' | h'
      · exact List.mem_of_mem_filter h'
      · exact List.mem_of_mem_filter (mem_sortBy.mp (mem_greedyAccept _ _ _ _ h'))

/-! ## Claim C7: ledger filtering of the candidate pool -/

/-- C7: the scraper's article assembly equals the specified `filter_new` of
the full candidate pool — every bookmark is kept regardless of the ledger, a
non-bookmark entry is kept exactly when its URL is not recorded as
delivered, and the kept candidates retain their relative order (the result
is a sublist of the unfiltered pool). -/
theorem discovered_articles_ledger_filter :
    ∀ (mm : MemoryManager) (entries : List FeedEntry) (bms : List LoadedBookmark),
      discoverArticles mm entries bms
        = (rawPool entries bms).filter (fun a => a.is_bookmark || !mm.is_processed a.url) ∧
      (∀ b ∈ bms, bookmarkToArticle b ∈ discoverArticles mm entries bms) ∧
      (discoverArticles mm entries bms).Sublist (rawPool entries bms) ∧
      (∀ e ∈ entries,
        (entryToArticle e ∈ discoverArticles mm entries bms ↔
          mm.is_processed e.link = false)) := by
  intro mm entries bms
  refine ⟨?_, ?_, ?_, ?_⟩
  · rw [rawPool, List.filter_append]
    have h₁ : (entries.map entryToArticle).filter
          (fun a => a.is_bookmark || !mm.is_processed a.url)
        = (entries.map entryToArticle).filter (fun a => !mm.is_processed a.url) := by
      refine List.filter_congr ?_
      intro a ha
      rcases List.mem_map.mp ha with ⟨e, _, rfl⟩
      simp [entryToArticle]
    have h₂ : (bms.map bookmarkToArticle).filter
          (fun a => a.is_bookmark || !mm.is_processed a.url)
        = bms.map bookmarkToArticle := by
      refine List.filter_eq_self.mpr ?_
      intro a ha
      rcases List.mem_map.mp ha with ⟨b, _, rfl⟩
      simp [bookmarkToArticle]
    rw [h₁, h₂, discoverArticles]
  · intro b hb
    exact List.mem_append_right _ (List.mem_map.mpr ⟨b, hb, rfl⟩)
  · exact (List.filter_sublist _).append (List.Sublist.refl _)
  · intro e he
    constructor
    · intro hmem
      rcases List.mem_append.mp hmem with h | h
      · have := List.of_mem_filter h
        simpa using this
      · rcases List.mem_map.mp h with ⟨b, _, hb⟩
        have : (bookmarkToArticle b).is_bookmark = (entryToArticle e).is_bookmark := by
          rw [hb]
        simp [bookmarkToArticle, entryToArticle] at this
    · intro hnp
      refine List.mem_append_left _ (List.mem_filter.mpr ?_)
      exact ⟨List.mem_map.mpr ⟨e, he, rfl⟩, by simp [entryToArticle, hnp]⟩

/-- C7 witness: on a concrete run where "u1" is already delivered, the
bookmark with URL "u1" is still kept while the fresh entry "u2" is kept and
the delivered entry "u1" is dropped. -/
theorem discovered_articles_ledger_filter_witness :
    wBm ∈ [wBm] ∧ wMM.is_processed wBm.url = true ∧
    bookmarkToArticle wBm ∈ discoverArticles wMM [wEntry1, wEntry2] [wBm] ∧
    (entryToArticle wEntry2 ∈ discoverArticles wMM [wEntry1, wEntry2] [wBm]) ∧
    (entryToArticle wEntry1 ∉ discoverArticles wMM [wEntry1, wEntry2] [wBm]) :=
  ⟨by decide, by decide,
   (discovered_articles_ledger_filter wMM [wEntry1, wEntry2] [wBm]).2.1 wBm (by decide),
   ((discovered_articles_ledger_filter wMM [wEntry1, wEntry2] [wBm]).2.2.2 wEntry2
      (by decide)).mpr (by decide),
   fun hmem => by
     have := ((discovered_articles_ledger_filter wMM [wEntry1, wEntry2] [wBm]).2.2.2 wEntry1
        (by decide)).mp hmem
     exact absurd this (by decide)⟩

/-! ## Claims C8, C9, C10 -/

/-- C8: ledger membership is case-insensitive and whitespace-trimmed.  For
every ledger state and any two URL strings that agree after trimming and
lower-casing, recording one makes the other test as delivered; and a URL
whose normalized form was never recorded into a ledger built from the fresh
module-level state tests as not delivered. -/
theorem memory_normalized_membership :
    (∀ (st : MemoryManager) (u v : String), pyNormalize u = pyNormalize v →
      (st.add_processed_url u).is_processed v = true) ∧
    (∀ (us : List String) (w : String), pyNormalize w ∉ us.map pyNormalize →
      (recordAll initialMemory us).is_processed w = false) := by
  constructor
  · intro st u v h
    simp [MemoryManager.is_processed, MemoryManager.add_processed_url, h]
  · have key : ∀ (us : List String) (st : MemoryManager) (w : String),
        pyNormalize w ∉ us.map pyNormalize →
        pyNormalize w ∉ st.processed_urls →
        (recordAll st us).is_processed w = false := by
      intro us
      induction us with
      | nil =>
          intro st w _ hst
          simpa [recordAll, MemoryManager.is_processed] using hst
      | cons u rest ih =>
          intro st w hus hst
          have h₁ : pyNormalize w ≠ pyNormalize u := by
            intro h; exact hus (by simp [h])
          have h₂ : pyNormalize w ∉ rest.map pyNormalize := by
            intro h; exact hus (by simp [h])
          have : pyNormalize w ∉ (st.add_processed_url u).processed_urls := by
            simp [MemoryManager.add_processed_url, Finset.mem_insert, h₁, hst]
          simpa [recordAll] using ih (st.add_processed_url u) w h₂ this
    intro us w h
    exact key us initialMemory w h (by simp [initialMemory])

/-- C8 witness: instantiating the membership properties at concrete URLs
(" HTTP://X.com " and "http://x.com" normalize identically; "http://y.com"
was never recorded). -/
theorem memory_normalized_membership_witness :
    (initialMemory.add_processed_url " HTTP://X.com ").is_processed "http://x.com" = true ∧
    (recordAll initialMemory [" HTTP://X.com "]).is_processed "http://y.com" = false :=
  ⟨memory_normalized_membership.1 initialMemory " HTTP://X.com " "http://x.com" (by decide),
   memory_normalized_membership.2 [" HTTP://X.com "] "http://y.com" (by decide)⟩

/-- C9: `add_processed_url` is idempotent: recording the same URL twice
yields the same state as recording it once, and recording a URL that already
tests as delivered leaves the state (hence `get_processed_count`) unchanged. -/
theorem add_processed_url_idempotent :
    (∀ (st : MemoryManager) (u : String),
      (st.add_processed_url u).add_processed_url u = st.add_processed_url u) ∧
    (∀ (st : MemoryManager) (u : String), st.is_processed u = true →
      st.add_processed_url u = st ∧
      (st.add_processed_url u).get_processed_count = st.get_processed_count) := by
  constructor
  · intro st u
    simp [MemoryManager.add_processed_url, Finset.insert_idem]
  · intro st u h
    have hm : pyNormalize u ∈ st.processed_urls := by
      simpa [MemoryManager.is_processed] using h
    have heq : st.add_processed_url u = st := by
      simp only [MemoryManager.add_processed_url]
      rw [Finset.insert_eq_self.mpr hm]
    exact ⟨heq, by rw [heq]⟩

/-- C9 witness: idempotence at a concrete state and URL. -/
theorem add_processed_url_idempotent_witness :
    ((initialMemory.add_processed_url "http://x.com").add_processed_url "http://x.com"
        = initialMemory.add_processed_url "http://x.com") ∧
    ((initialMemory.add_processed_url "http://x.com").is_processed "http://x.com" = true) ∧
    ((initialMemory.add_processed_url "http://x.com").add_processed_url "http://x.com"
        = initialMemory.add_processed_url "http://x.com") ∧
    ((initialMemory.add_processed_url "http://x.com").add_processed_url
        "http://x.com").get_processed_count
      = (initialMemory.add_processed_url "http://x.com").get_processed_count :=
  ⟨add_processed_url_idempotent.1 initialMemory "http://x.com",
   by decide,
   (add_processed_url_idempotent.2 (initialMemory.add_processed_url "http://x.com")
      "http://x.com" (by decide)).1,
   (add_processed_url_idempotent.2 (initialMemory.add_processed_url "http://x.com")
      "http://x.com" (by decide)).2⟩

/-- C10: when the configured bookmark file does not exist,
`BookmarkLoaderTool.run` returns a successful result with an empty bookmark
list and count 0 instead of signalling an error. -/
theorem bookmark_loader_missing_file_success :
    ∀ (path : String),
      (BookmarkLoaderTool.run path .missing).success = true ∧
      (BookmarkLoaderTool.run path .missing).bookmarks = [] ∧
      (BookmarkLoaderTool.run path .missing).count = 0 ∧
      (BookmarkLoaderTool.run path .missing).error = none :=
  fun _ => ⟨rfl, rfl, rfl, rfl⟩

/-! ## Claims C1-C6: the Selection Engine -/

/-- C1: every bookmark appears in the Selection Result; when the bookmarks
strictly exceed the target size of 20, the result is exactly the 20
bookmarks chosen by `published_at` descending then `url` ascending, and no
non-bookmark article is selected. -/
theorem selection_bookmark_guarantee :
    ∀ (pool r : List Article), selectArticles 20 pool = .ok r →
      ((pool.filter (fun a => a.is_bookmark)).length ≤ 20 →
        ∀ a ∈ pool, a.is_bookmark = true → a ∈ r) ∧
      (20 < (pool.filter (fun a => a.is_bookmark)).length →
        r = (sortBy bookmarkLE (pool.filter (fun a => a.is_bookmark))).take 20 ∧
        r.length = 20 ∧ ∀ a ∈ r, a.is_bookmark = true) := by
  intro pool r h
  by_cases hv : invariantViolated 20 pool = true
  · simp [selectArticles, hv] at h
  · by_cases hb : (20 : Int).toNat < (pool.filter (fun x => x.is_bookmark)).length
    · simp only [selectArticles, hv, Bool.false_eq_true, if_false, hb, if_true,
        Except.ok.injEq] at h
      subst h
      have hb' : 20 < (pool.filter (fun x => x.is_bookmark)).length := by
        simpa using hb
      have ht20 : (20 : Int).toNat = 20 := rfl
      constructor
      · intro hle
        omega
      · intro _
        refine ⟨by rw [ht20], ?_, ?_⟩
        · rw [ht20, List.length_take, length_sortBy]
          omega
        · intro a ha
          exact List.of_mem_filter (mem_sortBy.mp (List.mem_of_mem_take ha))
    · simp only [selectArticles, hv, Bool.false_eq_true, if_false, hb, if_true,
        Except.ok.injEq] at h
      subst h
      have hb' : ¬ 20 < (pool.filter (fun x => x.is_bookmark)).length := by
        simpa using hb
      constructor
      · intro _ a ha hbm
        exact List.mem_append_left _ (List.mem_filter.mpr ⟨ha, hbm⟩)
      · intro h20
        omega

/-- C1 witness: on a concrete pool with one bookmark and one scored
article, the bookmark is selected. -/
theorem selection_bookmark_guarantee_witness :
    (selectArticles 20 wPool2 = Except.ok wRes2) ∧ wB2 ∈ wRes2 :=
  ⟨rfl, (selection_bookmark_guarantee wPool2 wRes2 rfl).1 (by decide) wB2 (by decide) (by decide)⟩

/-- C2 counterexample: `cexPool` has 11 candidates (fewer than 20, zero
bookmarks), yet selection returns only 10 of them because they share one
`matched_topic` — so the result length is not `min(target_size,
bookmarks + candidates)` and not all candidates are returned. -/
theorem selection_bound_counterexample :
    cexPool.length = 11 ∧ cexPool.length < 20 ∧
    resultLength (selectArticles 20 cexPool) = some 10 ∧
    resultLength (selectArticles 20 cexPool) ≠ some (min 20 cexPool.length) := by
  refine ⟨by decide, by decide, ?_, ?_⟩ <;> decide

/-- C2 amended: the Selection Result has length exactly
`min(target_size, bookmarks + cap-eligible others)` where the cap-eligible
count takes the per-topic cap of 10 into account; and when fewer than
`target_size` candidates exist and no topic bucket of the non-bookmarks
exceeds the cap, all candidates are returned (the result is a permutation
of the pool), with no padding and no error. -/
theorem selection_length_capped_bound :
    ∀ (t : Int) (pool r : List Article), selectArticles t pool = .ok r →
      r.length = min t.toNat
        ((pool.filter (fun a => a.is_bookmark)).length +
          cappedAvail (fun _ => 0) (sortBy othersLE (pool.filter (fun a => !a.is_bookmark)))) ∧
      (pool.length < t.toNat →
        (∀ T : Option String,
          (pool.filter (fun a => !a.is_bookmark)).countP
            (fun a => decide (a.matched_topic = T)) ≤ topicCap) →
        List.Perm r pool) := by
  intro t pool r h
  by_cases hv : invariantViolated t pool = true
  · simp [selectArticles, hv] at h
  · by_cases hb : t.toNat < (pool.filter (fun x => x.is_bookmark)).length
    · simp only [selectArticles, hv, Bool.false_eq_true, if_false, hb, if_true,
        Except.ok.injEq] at h
      subst h
      constructor
      · rw [List.length_take, length_sortBy]
        omega
      · intro hlt _
        have hfl := List.length_filter_le (fun x => x.is_bookmark) pool
        omega
    · simp only [selectArticles, hv, Bool.false_eq_true, if_false, hb, if_true,
        Except.ok.injEq] at h
      subst h
      have hBO : (pool.filter (fun x => x.is_bookmark)).length +
          (pool.filter (fun x => !x.is_bookmark)).length = pool.length := by
        simpa using (List.filter_append_perm (fun x => x.is_bookmark) pool).length_eq
      constructor
      · rw [List.length_append, length_greedyAccept]
        omega
      · intro hlt hcap
        have hlen : (sortBy othersLE (pool.filter (fun x => !x.is_bookmark))).length ≤
            t.toNat - (pool.filter (fun x => x.is_bookmark)).length := by
          rw [length_sortBy]
          omega
        have hcap' : ∀ T, (fun _ : Option String => 0) T +
            (sortBy othersLE (pool.filter (fun x => !x.is_bookmark))).countP
              (fun a => decide (a.matched_topic = T)) ≤ topicCap := by
          intro T
          have := (sortBy_perm othersLE (pool.filter (fun x => !x.is_bookmark))).countP_eq
            (fun a => decide (a.matched_topic = T))
          simpa [this] using hcap T
        rw [greedyAccept_eq_self _ _ _ hlen hcap']
        exact ((sortBy_perm othersLE _).append_left _).trans
          (List.filter_append_perm (fun x => x.is_bookmark) pool)

/-- C2 amended witness: the length formula and the all-returned permutation
at a concrete two-article pool. -/
theorem selection_length_capped_bound_witness :
    (selectArticles 20 wPool2 = Except.ok wRes2) ∧
    wRes2.length = min (20 : Int).toNat
      ((wPool2.filter (fun a => a.is_bookmark)).length +
        cappedAvail (fun _ => 0) (sortBy othersLE (wPool2.filter (fun a => !a.is_bookmark)))) ∧
    List.Perm wRes2 wPool2 :=
  ⟨rfl,
   (selection_length_capped_bound 20 wPool2 wRes2 rfl).1,
   (selection_length_capped_bound 20 wPool2 wRes2 rfl).2 (by decide)
     (fun T => le_trans (List.countP_le_length _) (by decide))⟩

/-- C3: in every Selection Result, at most 10 non-bookmark articles share
any one `matched_topic` value (`none` being the pooled unmatched bucket). -/
theorem selection_per_topic_cap :
    ∀ (t : Int) (pool r : List Article), selectArticles t pool = .ok r →
      ∀ T : Option String,
        (r.filter (fun a => !a.is_bookmark)).countP
          (fun a => decide (a.matched_topic = T)) ≤ 10 := by
  intro t pool r h T
  by_cases hv : invariantViolated t pool = true
  · simp [selectArticles, hv] at h
  · by_cases hb : t.toNat < (pool.filter (fun x => x.is_bookmark)).length
    · simp only [selectArticles, hv, Bool.false_eq_true, if_false, hb, if_true,
        Except.ok.injEq] at h
      subst h
      have hnil : ((sortBy bookmarkLE (pool.filter (fun x => x.is_bookmark))).take
          t.toNat).filter (fun a => !a.is_bookmark) = [] := by
        refine List.filter_eq_nil_iff.mpr ?_
        intro a ha
        have : a.is_bookmark = true :=
          List.of_mem_filter (mem_sortBy.mp (List.mem_of_mem_take ha))
        simp [this]
      rw [hnil]
      simp
    · simp only [selectArticles, hv, Bool.false_eq_true, if_false, hb, if_true,
        Except.ok.injEq] at h
      subst h
      rw [List.filter_append]
      have h₁ : (pool.filter (fun x => x.is_bookmark)).filter (fun a => !a.is_bookmark)
          = [] := by
        refine List.filter_eq_nil_iff.mpr ?_
        intro a ha
        simp [List.of_mem_filter ha]
      have h₂ : (greedyAccept (t.toNat - (pool.filter (fun x => x.is_bookmark)).length)
            (fun _ => 0) (sortBy othersLE (pool.filter (fun x => !x.is_bookmark)))).filter
            (fun a => !a.is_bookmark)
          = greedyAccept (t.toNat - (pool.filter (fun x => x.is_bookmark)).length)
            (fun _ => 0) (sortBy othersLE (pool.filter (fun x => !x.is_bookmark))) := by
        refine List.filter_eq_self.mpr ?_
        intro a ha
        have hmem := List.of_mem_filter (mem_sortBy.mp (mem_greedyAccept _ _ _ _ ha))
        simpa using hmem
      rw [h₁, h₂, List.nil_append]
      simpa using countP_greedyAccept _ _ (fun _ => 0) T

/-- C3 witness: the cap bound instantiated on a concrete pool and topic. -/
theorem selection_per_topic_cap_witness :
    (selectArticles 20 wPool2 = Except.ok wRes2) ∧
    (wRes2.filter (fun a => !a.is_bookmark)).countP
      (fun a => decide (a.matched_topic = some "T")) ≤ 10 :=
  ⟨rfl, selection_per_topic_cap 20 wPool2 wRes2 rfl (some "T")⟩

/-- C4: the Selection Engine is deterministic — two runs on an identical,
unmutated candidate pool produce identical ordered output. -/
theorem selection_deterministic :
    ∀ (t : Int) (pool₁ pool₂ : List Article), pool₁ = pool₂ →
      selectArticles t pool₁ = selectArticles t pool₂ := by
  intro t pool₁ pool₂ h
  rw [h]

/-- C4 witness: the two-run equality at a concrete pool. -/
theorem selection_deterministic_witness :
    wPool2 = wPool2 ∧ selectArticles 20 wPool2 = selectArticles 20 wPool2 :=
  ⟨rfl, selection_deterministic 20 wPool2 wPool2 rfl⟩

/-- C5: the Selection Engine signals `InvariantViolation` exactly when
`target_size <= 0` or some pool article lacks a resolved priority; on every
valid input it returns a success value, so degraded (short) results are
distinguishable from failure only by length. -/
theorem selection_error_iff :
    ∀ (t : Int) (pool : List Article),
      (∃ e, selectArticles t pool = .error e) ↔
        (t ≤ 0 ∨ ∃ a ∈ pool, a.priority = none) := by
  intro t pool
  constructor
  · rintro ⟨e, he⟩
    by_cases hv : invariantViolated t pool = true
    · simpa [invariantViolated, Option.isNone_iff_eq_none] using hv
    · exfalso
      simp only [selectArticles, hv, Bool.false_eq_true, if_false] at he
      split at he <;> simp at he
  · intro hrhs
    have hv : invariantViolated t pool = true := by
      simpa [invariantViolated, Option.isNone_iff_eq_none] using hrhs
    exact ⟨.invariantViolation, by simp [selectArticles, hv]⟩

/-- C6: bookmarks carry priority 11 from the Bookmark Loader on, topic
matching never changes a bookmark, the Priority Resolver gives every
non-bookmark a resolved priority in [7, 10], and selection preserves the
priority invariant from the candidate pool into the Selection Result. -/
theorem priority_invariant_end_to_end :
    ∀ (m : Matcher) (catalog : List Topic) (path : String)
      (data : Option (List YamlBookmark)) (t : Int) (pool r : List Article),
      (∀ ti ex res, m ti ex catalog = some res → 7 ≤ res.2 ∧ res.2 ≤ 10) →
      (∀ a ∈ pool, ArticlePriorityInv a) →
      selectArticles t pool = .ok r →
      (∀ b ∈ (load_from_local path data).bookmarks, b.priority = 11) ∧
      (∀ a : Article, a.is_bookmark = true → resolveArticle m catalog a = a) ∧
      (∀ a : Article, a.is_bookmark = false →
        ArticlePriorityInv (resolveArticle m catalog a)) ∧
      (∀ a ∈ r, ArticlePriorityInv a) := by
  intro m catalog path data t pool r hm hpool hsel
  refine ⟨?_, ?_, ?_, ?_⟩
  · intro b hb
    simp only [load_from_local] at hb
    rcases List.mem_filterMap.mp hb with ⟨y, _, hy⟩
    cases y with
    | nonDict => simp [validateBookmark] at hy
    | dict u note sd =>
        cases u with
        | none => simp [validateBookmark] at hy
        | some u' =>
            simp only [validateBookmark, Option.some.injEq] at hy
            rw [← hy]
  · intro a ha
    simp [resolveArticle, ha]
  · intro a ha
    simp only [resolveArticle, ha, Bool.false_eq_true, if_false]
    cases hmatch : m a.title a.excerpt catalog with
    | none =>
        refine ⟨by simp [ha], ?_⟩
        intro _
        simp [priVal]
    | some res =>
        rcases res with ⟨name, pr⟩
        have hbounds := hm a.title a.excerpt (name, pr) hmatch
        refine ⟨by simp [ha], ?_⟩
        intro _
        simp only [priVal]
        simpa using hbounds
  · intro a ha
    exact hpool a (select_ok_sub hsel a ha)

/-- C6 witness: the invariant chain instantiated with a concrete matcher,
pool and selection run; the selected bookmark satisfies the invariant. -/
theorem priority_invariant_end_to_end_witness :
    (selectArticles 20 wPool2 = Except.ok wRes2) ∧ ArticlePriorityInv wB2 :=
  ⟨rfl,
   (priority_invariant_end_to_end wMatcher [] "config/weekly_bookmarks.yaml" none 20
      wPool2 wRes2
      (fun _ _ _ h => Option.noConfusion h)
      (by decide) rfl).2.2.2 wB2 (by decide)⟩

end MyNewsRobot
